import Mathlib

/-!
# Verification of the bgdrive-sync object manager

Shallow embedding of the reconciliation core of `bgdrive-sync`:
`src/cmd/object_manager.go` (the metadata store and the resolver) and the
sync driver `syncFiles`/`main` (the file whose name is unknown,
`src/unnamed/part_001`).

Modelling conventions:
* Filesystem paths are component lists (`FPath := List String`);
  `filepath.Dir` is `List.dropLast`, `filepath.Base` is the last component.
  The global `binPath` (the sync root, compared against in `loadObject`)
  is the `rootPath` field of the state.
* Go's `map[string]*Object` is an association list `List (FPath × Object)`
  whose keys stay duplicate-free because the only inserting operation,
  `storeObject`, refuses a present key.  Go's in-place mutation of a
  `*Object` that the map aliases (`updateStoredObject`) is modelled as a
  functional update of the map at that key.
* `os.Stat` is an oracle `FS : FPath → Except String FSEntry`; the gdrive
  CLI (`execCommand`) is an oracle `resp : Nat → Except String String`
  consulted at an invocation counter `k`, so each backend call reads the
  next response.  Backend commands are recorded as structured
  `BackendCmd` values rather than shell strings.
* A ghost event log `events` records observable effects: the read-lock
  acquisition of `loadObject` (`om.objectMapRWMu.RLock`, lines 57-58),
  each `os.Stat` call, each successful placeholder insertion (together
  with the map and the root-folder id at that instant), and each backend
  invocation.  The log never influences control flow.
-/

/-- `Object` (object_manager.go lines 17-22): one tracked entry.
`gdId` is the remote id (`""` = creation in flight, the lock state),
`gdpId` the parent's remote id, `lastMod` a Unix timestamp (0 for
directories), `size` a byte count. -/
structure Object where
  gdId : String
  gdpId : String
  lastMod : Int
  size : Int
deriving DecidableEq, Repr

/-- A local filesystem path, as its list of components.  `filepath.Dir`
drops the last component, `filepath.Base` is the last component. -/
abbrev FPath := List String

def dirOf (p : FPath) : FPath := p.dropLast

def baseOf (p : FPath) : String := p.getLastD ""

/-- A backend (gdrive CLI) invocation, structured.  `create` covers the
`mkdir`/`upload` forms of NewObject line 147-150: `parent = none` is the
root-relative form that omits `--parent` (used when the parent id is
`"."`), `parent = some pid` passes `--parent pid`. -/
inductive BackendCmd where
  | create (dir : FPath) (op : String) (name : String) (parent : Option String)
  | update (dir : FPath) (gdId : String) (name : String)
  | delete (gdId : String)
deriving DecidableEq, Repr

/-- Which side of the reader/writer lock an operation acquires. -/
inductive LockKind where
  | read
  | write
deriving DecidableEq, Repr

/-- Ghost events: observable effects of the object manager. -/
inductive Ev where
  /-- a lock acquisition (recorded for `loadObject`, which takes the
  read side, lines 57-58) -/
  | lockE (k : LockKind)
  /-- an `os.Stat` call (NewObject line 124) -/
  | statE (loc : FPath)
  /-- a successful placeholder insertion by `storeObject` (line 38),
  recording the map contents and `cfg.RootFolderID` just before it -/
  | insertE (key : FPath) (o : Object) (preMap : List (FPath × Object))
      (preRootID : String)
  /-- a backend invocation via `execCommand` (line 261) -/
  | cmdE (c : BackendCmd)
deriving DecidableEq

/-- Result of one `os.Stat` (the fields `syncFiles` and `NewObject`
read from `os.FileInfo`). -/
structure FSEntry where
  isDir : Bool
  modTimeUnix : Int
  size : Int
deriving DecidableEq, Repr

/-- The local filesystem as a stat oracle; `.error e` is a failing
`os.Stat` whose message is surfaced unchanged. -/
abbrev FS := FPath → Except String FSEntry

/-- The mutable state of an `ObjectManager` (lines 24-29) together with
its oracles and the ghost log.  `rootPath` is the global `binPath`;
`rootFolderID` is `om.cfg.RootFolderID` (mutated by `loadObject`);
`resp`/`k` model the gdrive CLI's successive answers. -/
structure St where
  rootPath : FPath
  rootFolderID : String
  objectMap : List (FPath × Object)
  resp : Nat → Except String String
  k : Nat
  events : List Ev

/-- Association-list lookup with decidable path equality; the Go map
read `om.objectMap[key]`. -/
def lookupMap (m : List (FPath × Object)) (key : FPath) : Option Object :=
  match m with
  | [] => none
  | (k, o) :: rest => if k = key then some o else lookupMap rest key

/-- Removal of a key; the Go `delete(om.objectMap, key)`. -/
def eraseKey (m : List (FPath × Object)) (key : FPath) : List (FPath × Object) :=
  match m with
  | [] => []
  | (k, o) :: rest =>
      if k = key then eraseKey rest key else (k, o) :: eraseKey rest key

/-- Overwriting the entry at a key; the effect on the map of Go's
in-place mutation of the aliased `*Object`. -/
def setKey (m : List (FPath × Object)) (key : FPath) (o : Object) :
    List (FPath × Object) :=
  match m with
  | [] => []
  | (k, o0) :: rest =>
      if k = key then (k, o) :: setKey rest key o
      else (k, o0) :: setKey rest key o

/-- `storeObject` (lines 31-41): atomic compare-and-insert under the
write lock.  Returns `stored = true` and adds the entry iff the key was
absent; otherwise leaves the map untouched. -/
def storeObject (s : St) (key : FPath) (object : Object) : Bool × St :=
  match lookupMap s.objectMap key with
  | some _ => (false, s)
  | none =>
      (true,
       { s with
         objectMap := (key, object) :: s.objectMap
         events :=
           s.events ++ [Ev.insertE key object s.objectMap s.rootFolderID] })

/-- `isLocked` (lines 43-47): an object is locked iff its remote id is
still empty.  (The RLock it takes guards no modelled state.) -/
def isLocked (o : Object) : Bool := o.gdId = ""

/-- `updateStoredObject` (lines 49-54): applies `f` to the object under
the write lock and returns it.  Go mutates the `*Object` in place and the
map entry for `key` aliases it, so here the map is updated at `key`. -/
def updateStoredObject (s : St) (key : FPath) (o : Object)
    (f : Object → Object) : St × Object :=
  ({ s with objectMap := setKey s.objectMap key (f o) }, f o)

/-- `loadObject` (lines 56-67): under the read lock (ghost `lockE .read`),
the sync root resolves to a synthesized sentinel whose id is
`cfg.RootFolderID` — after first setting that id to `"."` if it is still
empty, a persistent mutation of the shared config —; any other key is a
plain map lookup. -/
def loadObject (s : St) (key : FPath) : St × Option Object :=
  let s := { s with events := s.events ++ [Ev.lockE LockKind.read] }
  if key = s.rootPath then
    let s :=
      if s.rootFolderID = "" then { s with rootFolderID := "." } else s
    (s, some ⟨s.rootFolderID, "", 0, 0⟩)
  else
    (s, lookupMap s.objectMap key)

/-- `deleteObject` (lines 69-73): removes the entry under the write
lock. -/
def deleteObject (s : St) (key : FPath) : St :=
  { s with objectMap := eraseKey s.objectMap key }

/-- `CopyObjects` (lines 75-82) deep-copies the map through
`json.Marshal`/`json.Unmarshal`; on the value level that copy is the
identity. -/
def CopyObjects (s : St) : List (FPath × Object) := s.objectMap

/-- `execCommand` (lines 261-278): one backend invocation; records the
command, consumes the next oracle response.  (`TestMode` is the constant
oracle `fun _ => .ok "0"`.) -/
def execCommand (s : St) (c : BackendCmd) : St × Except String String :=
  ({ s with events := s.events ++ [Ev.cmdE c], k := s.k + 1 }, s.resp s.k)

/-- `os.Stat` at NewObject line 124, with its ghost event. -/
def osStat (s : St) (fs : FS) (loc : FPath) : St × Except String FSEntry :=
  ({ s with events := s.events ++ [Ev.statE loc] }, fs loc)

/- ### The Object Resolver (`NewObject`, lines 98-169) -/

/-- Stands for the Go `nil` `*Object` returned in error branches (the
caller never dereferences it there). -/
def nilObject : Object := ⟨"", "", 0, 0⟩

/-- Result tuple of `NewObject`: `(object, loaded, locked, err)` plus the
updated state. -/
structure NORes where
  s : St
  obj : Object
  loaded : Bool
  locked : Bool
  err : Option String

/-- Lines 120-168 of `NewObject`: the part that runs once the parent
object `pObj` is in hand.  Checks the parent lock, stats `loc`, builds
the placeholder, attempts the compare-and-insert, invokes the backend
creation command (root-relative when the parent id is `"."`), and on
failure rolls the placeholder back; on success completes the placeholder
with the returned id. -/
def createAt (fs : FS) (s : St) (loc : FPath) (pObj : Object) : NORes :=
  if isLocked pObj then
    ⟨s, pObj, false, true, none⟩
  else
    let d := dirOf loc
    let b := baseOf loc
    let stat := osStat s fs loc
    match stat.2 with
    | .error e => ⟨stat.1, nilObject, false, false, some e⟩
    | .ok wr =>
      let op := if wr.isDir then "mkdir" else "upload"
      let lastMod : Int := if wr.isDir then 0 else wr.modTimeUnix
      let lockedNObj : Object := ⟨"", pObj.gdId, lastMod, wr.size⟩
      let st := storeObject stat.1 loc lockedNObj
      if st.1 = false then
        ⟨st.2, pObj, false, true, none⟩
      else
        let cmd : BackendCmd :=
          if pObj.gdId = "." then BackendCmd.create d op b none
          else BackendCmd.create d op b (some pObj.gdId)
        let ex := execCommand st.2 cmd
        match ex.2 with
        | .error e => ⟨deleteObject ex.1 loc, nilObject, false, false, some e⟩
        | .ok nGDId =>
          let upd := updateStoredObject ex.1 loc lockedNObj
            (fun o => { o with gdId := nGDId })
          ⟨upd.1, upd.2, false, false, none⟩

/-- `NewObject` (lines 98-169): resolve `loc`, lazily creating it and its
missing ancestors.  The recursion on `filepath.Dir` is fuelled (`none` =
fuel exhausted; the Go original diverges only when the sync root is not
an ancestor of `loc`).  Returns the entry, `loaded`
(= `alreadyExisted`), `locked`, and the error slot. -/
def NewObject (fs : FS) : Nat → St → FPath → Option NORes
  | 0, _, _ => none
  | fuel + 1, s, loc =>
    match loadObject s loc with
    | (s1, some eObj) => some ⟨s1, eObj, true, isLocked eObj, none⟩
    | (s1, none) =>
      let d := dirOf loc
      match loadObject s1 d with
      | (s2, some pObj) => some (createAt fs s2 loc pObj)
      | (s2, none) =>
        match NewObject fs fuel s2 d with
        | none => none
        | some r =>
          if r.err.isSome then some ⟨r.s, nilObject, false, false, r.err⟩
          else if r.loaded || r.locked then
            some ⟨r.s, r.obj, r.loaded, r.locked, none⟩
          else some (createAt fs r.s loc r.obj)

/- ### Modification check and Sync (lines 171-213) -/

/-- `WalkResp` (driver file lines 71-76): one filesystem walk entry. -/
structure WalkResp where
  loc : FPath
  modTimeUnix : Int
  isDir : Bool
  size : Int

/-- `UpdateObjectIfModTimeChanged` (lines 189-213): directories never
update; a file updates only when the observed modification time is
strictly greater than the stored one AND the size differs; a failing
backend update is swallowed (`return false, nil`); a successful one sets
the stored `lastMod` and `size` together.  The Go function's error
result is `nil` on every path, hence the constant `none` slot. -/
def UpdateObjectIfModTimeChanged (s : St) (wr : WalkResp) (object : Object) :
    St × Bool × Option String :=
  if wr.isDir then
    (s, false, none)
  else if wr.modTimeUnix ≤ object.lastMod ∨ wr.size = object.size then
    (s, false, none)
  else
    let d := dirOf wr.loc
    let b := baseOf wr.loc
    let ex := execCommand s (BackendCmd.update d object.gdId b)
    match ex.2 with
    | .error _ => (ex.1, false, none)
    | .ok _ =>
      let upd := updateStoredObject ex.1 wr.loc object
        (fun o => { o with lastMod := wr.modTimeUnix, size := wr.size })
      (upd.1, true, none)

/-- Result tuple of `Sync` (lines 171-187). -/
structure SyncRes where
  s : St
  created : Bool
  updated : Bool
  locked : Bool
  err : Option String

/-- `Sync` (lines 171-187): resolve one walk entry; report `locked`
unchanged; run the modification check only for a pre-existing
(`loaded`) entry. -/
def Sync (fs : FS) (fuel : Nat) (s : St) (wr : WalkResp) : Option SyncRes :=
  match NewObject fs fuel s wr.loc with
  | none => none
  | some r =>
    if r.err.isSome then some ⟨r.s, false, false, false, r.err⟩
    else if r.locked then some ⟨r.s, false, false, true, none⟩
    else if !r.loaded then some ⟨r.s, true, false, false, none⟩
    else
      let u := UpdateObjectIfModTimeChanged r.s wr r.obj
      some ⟨u.1, false, u.2.1, false, u.2.2⟩

/-- One RESOLVE_PASS of `syncFiles` (driver lines 100-133),
sequentialized: run `Sync` on each pending entry in order; entries that
report `locked` are collected (in order) into the next pass's list
`ntr`; the first task error is recorded as `erw`.  `none` = fuel
exhausted inside some `NewObject`. -/
def syncPass (fs : FS) (fuel : Nat) :
    St → List WalkResp → Option (St × List WalkResp × Option String)
  | s, [] => some (s, [], none)
  | s, wr :: rest =>
    match Sync fs fuel s wr with
    | none => none
    | some r =>
      match syncPass fs fuel r.s rest with
      | none => none
      | some (s1, ntr, erw) =>
        if r.locked then some (s1, wr :: ntr, erw)
        else some (s1, ntr, if r.err.isSome then r.err else erw)

/- ### Deletion reconciliation (lines 236-240, driver lines 135-156) -/

/-- `DeleteObjectGDrive` (lines 236-240): one backend recursive delete on
the entry's id, then — via `defer` — removal of the entry from the map,
whatever the backend answered. -/
def DeleteObjectGDrive (s : St) (loc : FPath) (object : Object) : St :=
  let ex := execCommand s (BackendCmd.delete object.gdId)
  deleteObject ex.1 loc

/-- Driver lines 135-144: the deletion queue is the copied map minus
every path still present in the current filesystem walk. -/
def deletedQueueOf (s : St) (walked : List FPath) : List (FPath × Object) :=
  (CopyObjects s).filter (fun p => decide (p.1 ∉ walked))

/-- Driver lines 146-156, sequentialized: one `DeleteObjectGDrive` per
queued entry. -/
def deletePhase (s : St) (queue : List (FPath × Object)) : St :=
  queue.foldl (fun s p => DeleteObjectGDrive s p.1 p.2) s

/- ### Persistence (lines 84-96, 215-234, 242-259) -/

/-- The JSON codec (`encoding/json`) is outside the repository; it is
abstracted as a marshal/unmarshal pair over an arbitrary byte type. -/
structure Codec (β : Type) where
  marshal : List (FPath × Object) → β
  unmarshal : β → Option (List (FPath × Object))

/-- The assumed contract of the external codec: decoding an encoded map
yields a map with the same entries (as a mapping; Go map iteration order
is irrelevant). -/
def Codec.RoundTrips {β : Type} (c : Codec β) : Prop :=
  ∀ m, ∃ m', c.unmarshal (c.marshal m) = some m' ∧
    ∀ key, lookupMap m' key = lookupMap m key

/-- `CopyObjects` with its internal codec use made explicit (lines
78-80: marshal, unmarshal into a fresh empty map, error ignored). -/
def CopyObjectsVia {β : Type} (c : Codec β) (m : List (FPath × Object)) :
    List (FPath × Object) :=
  (c.unmarshal (c.marshal m)).getD []

/-- `SaveToFile` (lines 84-96): the persisted bytes are the marshalled
deep copy of the map.  (The `os.WriteFile` error path returns the error
without writing; the round-trip claim concerns the written bytes.) -/
def SaveToFile {β : Type} (c : Codec β) (s : St) : β :=
  c.marshal (CopyObjectsVia c s.objectMap)

/-- `NewObjectManager` lines 217-226 composed with `readObjectMap`
(lines 242-259): read the file's bytes back (an absent or empty file
stands in as `none` and yields the marshalled empty map, lines 254-256)
and unmarshal them into a fresh map. -/
def loadStore {β : Type} (c : Codec β) (emptyJson : β)
    (fileContent : Option β) : Option (List (FPath × Object)) :=
  c.unmarshal (match fileContent with
    | none => emptyJson
    | some d => d)

/- ### Repeated insert attempts (for the dedup primitive) -/

/-- A sequence of `storeObject` attempts for one key, threaded through
the state; returns the list of `stored` results. -/
def storeAttempts (s : St) (key : FPath) :
    List Object → List Bool × St
  | [] => ([], s)
  | o :: os =>
    let st := storeObject s key o
    let rest := storeAttempts st.2 key os
    (st.1 :: rest.1, rest.2)

/- ### Race model for concurrent `NewObject` on one path (C1)

`NewObject`'s accesses to the shared map for a fixed path `loc` are the
atomic `loadObject loc` read (line 100) and the atomic compare-and-insert
`storeObject` (line 143); the backend creation call (line 153) happens
only after a successful insert.  For N workers racing on the same path
before any backend response returns (so no completion and no rollback
has happened yet) the per-worker protocol is the program below, and the
schedule interleaves the workers' atomic steps arbitrarily. -/

/-- Program counter of one racing worker: about to run line 100's load,
about to run line 143's store, or returned — with `alreadyExisted=true`
(line 101-103), with `locked=true` (line 144-146), or as the single
creator that goes on to issue the backend creation call (line 153). -/
inductive WorkerPC where
  | atLoad
  | atStore
  | doneAlready
  | doneLocked
  | doneCreator
deriving DecidableEq, Repr

/-- Shared state of the race: whether the map has an entry for the
contested path, how many backend creation invocations were issued, and
each worker's program counter. -/
structure RaceState where
  hasEntry : Bool
  backendCalls : Nat
  pcs : List WorkerPC
deriving DecidableEq, Repr

/-- One atomic step of a single worker, given the shared `hasEntry` bit:
returns the new pc, the new `hasEntry`, and the number of backend
creation calls the step issues. -/
def workerStep (pc : WorkerPC) (hasEntry : Bool) :
    WorkerPC × Bool × Nat :=
  match pc with
  | .atLoad =>
      if hasEntry then (.doneAlready, hasEntry, 0)
      else (.atStore, hasEntry, 0)
  | .atStore =>
      if hasEntry then (.doneLocked, hasEntry, 0)
      else (.doneCreator, true, 1)
  | pc => (pc, hasEntry, 0)

/-- Run the scheduled worker `t`'s next atomic step (no-op on an invalid
index; a finished worker keeps its pc). -/
def raceStep (rs : RaceState) (t : Nat) : RaceState :=
  match rs.pcs.get? t with
  | none => rs
  | some pc =>
      let r := workerStep pc rs.hasEntry
      ⟨r.2.1, rs.backendCalls + r.2.2, rs.pcs.set t r.1⟩

/-- Run a whole schedule (an arbitrary interleaving of atomic steps). -/
def raceRun (rs : RaceState) : List Nat → RaceState
  | [] => rs
  | t :: sched => raceRun (raceStep rs t) sched

/-- N workers all about to resolve the same, not yet tracked, path. -/
def initRace (n : Nat) : RaceState :=
  ⟨false, 0, List.replicate n WorkerPC.atLoad⟩

/-- A worker has returned. -/
def isDoneW : WorkerPC → Bool
  | .doneAlready => true
  | .doneLocked => true
  | .doneCreator => true
  | _ => false

/-- Number of creator pcs in a worker list. -/
def creatorsL (l : List WorkerPC) : Nat :=
  l.countP (fun pc => pc = WorkerPC.doneCreator)

/-- Number of workers that performed the backend creation call. -/
def creators (rs : RaceState) : Nat := creatorsL rs.pcs

/-- Number of pcs that returned `locked=true` or `alreadyExisted=true`. -/
def deferrersL (l : List WorkerPC) : Nat :=
  l.countP (fun pc => pc = WorkerPC.doneAlready ∨ pc = WorkerPC.doneLocked)

/-- Number of workers that returned `locked=true` or
`alreadyExisted=true`. -/
def deferrers (rs : RaceState) : Nat := deferrersL rs.pcs

/-- The inductive invariant of the race: the number of backend creation
calls and of creator workers both equal one exactly when the map entry
exists, and while no entry exists every worker is still before its
compare-and-insert. -/
def raceInv (rs : RaceState) : Prop :=
  rs.backendCalls = creators rs ∧
  (rs.hasEntry = true → creators rs = 1) ∧
  (rs.hasEntry = false → creators rs = 0) ∧
  (rs.hasEntry = false →
    ∀ pc ∈ rs.pcs, pc = WorkerPC.atLoad ∨ pc = WorkerPC.atStore)

/- Concrete fixtures for the C4 witness: a store whose entry for the
grandparent `["r", "a"]` is a locked placeholder, so resolving
`["r", "a", "b", "c"]` propagates `locked=true` from the recursion. -/

def wResp : Nat → Except String String := fun _ => Except.ok "g"

def wFS : FS := fun _ => Except.ok ⟨false, 2, 3⟩

def wSt4 : St :=
  ⟨["r"], "rid", [(["r", "a"], ⟨"", "rid", 0, 0⟩)], wResp, 0, []⟩

def wEv (n : Nat) : List Ev := List.replicate n (Ev.lockE LockKind.read)

def wR : NORes :=
  ⟨⟨["r"], "rid", [(["r", "a"], ⟨"", "rid", 0, 0⟩)], wResp, 0, wEv 4⟩,
   ⟨"", "rid", 0, 0⟩, false, true, none⟩

def wWR : WalkResp := ⟨["r", "a", "b", "c"], 0, false, 0⟩

def wSR : SyncRes := ⟨wR.s, false, false, true, none⟩

/-- The C3 property of a single ghost event: an inserted placeholder's
`gdpId` equals the id the store held for its parent path at that
instant (the root sentinel id when the parent is the sync root) and is
non-empty; a creation command never names an empty parent id. -/
def evOk (rootPath : FPath) : Ev → Prop
  | Ev.insertE key o preMap preRootID =>
      o.gdpId ≠ "" ∧
      (if dirOf key = rootPath then o.gdpId = preRootID
       else ∃ po, lookupMap preMap (dirOf key) = some po ∧ o.gdpId = po.gdId)
  | Ev.cmdE (BackendCmd.create _ _ _ parent) => parent ≠ some ""
  | _ => True

/-- The parent object handed to the creation step agrees with what the
store (or the root sentinel) currently holds for the parent path. -/
def parentMatches (s : St) (loc : FPath) (pObj : Object) : Prop :=
  if dirOf loc = s.rootPath then pObj.gdId = s.rootFolderID
  else ∃ po, lookupMap s.objectMap (dirOf loc) = some po ∧
    pObj.gdId = po.gdId

/- Fixtures for the C3 witness: one fresh file created directly under
the sync root. -/

def cSt : St := ⟨["r"], "rid", [], wResp, 0, []⟩

def cR : NORes :=
  ⟨⟨["r"], "rid", [(["r", "x"], ⟨"g", "rid", 2, 3⟩)], wResp, 1,
    [Ev.lockE LockKind.read, Ev.lockE LockKind.read, Ev.statE ["r", "x"],
     Ev.insertE ["r", "x"] ⟨"", "rid", 2, 3⟩ [] "rid",
     Ev.cmdE (BackendCmd.create ["r"] "upload" "x" (some "rid"))]⟩,
   ⟨"g", "rid", 2, 3⟩, false, false, none⟩

/- ### Basic lookup lemmas -/

@[simp]
theorem lookupMap_nil (key : FPath) : lookupMap [] key = none := rfl

theorem lookupMap_cons (k : FPath) (o : Object) (m : List (FPath × Object))
    (key : FPath) :
    lookupMap ((k, o) :: m) key =
      if k = key then some o else lookupMap m key := rfl

@[simp]
theorem lookupMap_cons_self (k : FPath) (o : Object)
    (m : List (FPath × Object)) : lookupMap ((k, o) :: m) k = some o := by
  simp [lookupMap_cons]

theorem eraseKey_lookup_none (m : List (FPath × Object)) (key : FPath)
    (h : lookupMap m key = none) : eraseKey m key = m := by
  induction m with
  | nil => rfl
  | cons p rest ih =>
      obtain ⟨k, o⟩ := p
      rw [lookupMap_cons] at h
      by_cases hk : k = key
      · simp [hk] at h
      · simp [eraseKey, hk, ih (by simpa [hk] using h)]

theorem lookupMap_eraseKey_self (m : List (FPath × Object)) (key : FPath) :
    lookupMap (eraseKey m key) key = none := by
  induction m with
  | nil => rfl
  | cons p rest ih =>
      obtain ⟨k, o⟩ := p
      by_cases hk : k = key
      · simpa [eraseKey, hk] using ih
      · simpa [eraseKey, hk, lookupMap_cons] using ih

theorem lookupMap_setKey_of_lookup (m : List (FPath × Object)) (key : FPath)
    (o o' : Object) (h : lookupMap m key = some o') :
    lookupMap (setKey m key o) key = some o := by
  induction m with
  | nil => simp at h
  | cons p rest ih =>
      obtain ⟨k, o0⟩ := p
      rw [lookupMap_cons] at h
      by_cases hk : k = key
      · simp [setKey, hk, lookupMap_cons]
      · simp only [setKey, if_neg hk, lookupMap_cons, if_neg hk]
        exact ih (by simpa [hk] using h)


/- ### Race model lemmas -/

theorem countP_set_balance {α : Type} (p : α → Bool) :
    ∀ (l : List α) (t : Nat) (pc a : α), l.get? t = some pc →
      (l.set t a).countP p + (if p pc then 1 else 0)
        = l.countP p + (if p a then 1 else 0) := by
  intro l
  induction l with
  | nil => intro t pc a h; simp [List.get?] at h
  | cons hd tl ih =>
      intro t pc a h
      cases t with
      | zero =>
          simp [List.get?] at h
          subst h
          simp [List.set, List.countP_cons]
          omega
      | succ t =>
          simp only [List.get?] at h
          simp only [List.set, List.countP_cons]
          have := ih t pc a h
          omega

theorem creatorsL_set (l : List WorkerPC) (t : Nat) (pc a : WorkerPC)
    (h : l.get? t = some pc) :
    creatorsL (l.set t a) + (if pc = WorkerPC.doneCreator then 1 else 0)
      = creatorsL l + (if a = WorkerPC.doneCreator then 1 else 0) := by
  have := countP_set_balance
    (fun pc => decide (pc = WorkerPC.doneCreator)) l t pc a h
  simp only [decide_eq_true_eq] at this
  simpa [creatorsL] using this

theorem creatorsL_replicate_atLoad (n : Nat) :
    creatorsL (List.replicate n WorkerPC.atLoad) = 0 := by
  induction n with
  | zero => rfl
  | succ n ih =>
      rw [List.replicate_succ]
      simp [creatorsL, List.countP_cons]

theorem raceRun_length (sched : List Nat) : ∀ rs : RaceState,
    (raceRun rs sched).pcs.length = rs.pcs.length := by
  induction sched with
  | nil => intro rs; rfl
  | cons t sched ih =>
      intro rs
      rw [raceRun, ih]
      unfold raceStep
      cases h : rs.pcs.get? t with
      | none => rfl
      | some pc => simp [List.length_set]

theorem raceInv_init (n : Nat) : raceInv (initRace n) := by
  refine ⟨?_, ?_, ?_, ?_⟩
  · simpa [initRace, creators] using (creatorsL_replicate_atLoad n).symm
  · intro hc; simp [initRace] at hc
  · intro _
    simpa [initRace, creators] using creatorsL_replicate_atLoad n
  · intro _ pc hpc
    left
    exact List.eq_of_mem_replicate hpc

theorem raceInv_step (rs : RaceState) (t : Nat) (h : raceInv rs) :
    raceInv (raceStep rs t) := by
  obtain ⟨h1, h2, h3, h4⟩ := h
  simp only [creators] at h1 h2 h3
  unfold raceStep
  cases hget : rs.pcs.get? t with
  | none => exact ⟨h1, by simpa [creators] using h2, by simpa [creators] using h3, h4⟩
  | some pc =>
      have hmem : pc ∈ rs.pcs := List.get?_mem hget
      have hbal := creatorsL_set rs.pcs t pc
      cases pc with
      | atLoad =>
          cases hhe : rs.hasEntry with
          | false =>
              have hb := hbal WorkerPC.atStore hget
              simp at hb
              show raceInv ⟨false, rs.backendCalls + 0, rs.pcs.set t WorkerPC.atStore⟩
              refine ⟨?_, ?_, ?_, ?_⟩
              · simp only [creators]
                have := h3 hhe
                omega
              · intro hc; exact absurd hc (by simp)
              · intro _
                simp only [creators]
                have := h3 hhe
                omega
              · intro _ pc' hpc'
                rcases List.mem_or_eq_of_mem_set hpc' with hin | rfl
                · exact h4 hhe pc' hin
                · right; rfl
          | true =>
              have hb := hbal WorkerPC.doneAlready hget
              simp at hb
              show raceInv ⟨true, rs.backendCalls + 0, rs.pcs.set t WorkerPC.doneAlready⟩
              refine ⟨?_, ?_, ?_, ?_⟩
              · simp only [creators]
                have := h2 hhe
                omega
              · intro _
                simp only [creators]
                have := h2 hhe
                omega
              · intro hc; exact absurd hc (by simp)
              · intro hc; exact absurd hc (by simp)
      | atStore =>
          cases hhe : rs.hasEntry with
          | false =>
              have hb := hbal WorkerPC.doneCreator hget
              simp at hb
              show raceInv ⟨true, rs.backendCalls + 1, rs.pcs.set t WorkerPC.doneCreator⟩
              refine ⟨?_, ?_, ?_, ?_⟩
              · simp only [creators]
                have := h3 hhe
                omega
              · intro _
                simp only [creators]
                have := h3 hhe
                omega
              · intro hc; exact absurd hc (by simp)
              · intro hc; exact absurd hc (by simp)
          | true =>
              have hb := hbal WorkerPC.doneLocked hget
              simp at hb
              show raceInv ⟨true, rs.backendCalls + 0, rs.pcs.set t WorkerPC.doneLocked⟩
              refine ⟨?_, ?_, ?_, ?_⟩
              · simp only [creators]
                have := h2 hhe
                omega
              · intro _
                simp only [creators]
                have := h2 hhe
                omega
              · intro hc; exact absurd hc (by simp)
              · intro hc; exact absurd hc (by simp)
      | doneAlready =>
          cases hhe : rs.hasEntry with
          | false => rcases h4 hhe _ hmem with hc | hc <;> simp at hc
          | true =>
              have hb := hbal WorkerPC.doneAlready hget
              simp at hb
              show raceInv ⟨true, rs.backendCalls + 0, rs.pcs.set t WorkerPC.doneAlready⟩
              refine ⟨?_, ?_, ?_, ?_⟩
              · simp only [creators]
                have := h2 hhe
                omega
              · intro _
                simp only [creators]
                have := h2 hhe
                omega
              · intro hc; exact absurd hc (by simp)
              · intro hc; exact absurd hc (by simp)
      | doneLocked =>
          cases hhe : rs.hasEntry with
          | false => rcases h4 hhe _ hmem with hc | hc <;> simp at hc
          | true =>
              have hb := hbal WorkerPC.doneLocked hget
              simp at hb
              show raceInv ⟨true, rs.backendCalls + 0, rs.pcs.set t WorkerPC.doneLocked⟩
              refine ⟨?_, ?_, ?_, ?_⟩
              · simp only [creators]
                have := h2 hhe
                omega
              · intro _
                simp only [creators]
                have := h2 hhe
                omega
              · intro hc; exact absurd hc (by simp)
              · intro hc; exact absurd hc (by simp)
      | doneCreator =>
          cases hhe : rs.hasEntry with
          | false => rcases h4 hhe _ hmem with hc | hc <;> simp at hc
          | true =>
              have hb := hbal WorkerPC.doneCreator hget
              simp at hb
              show raceInv ⟨true, rs.backendCalls + 0, rs.pcs.set t WorkerPC.doneCreator⟩
              refine ⟨?_, ?_, ?_, ?_⟩
              · simp only [creators]
                have := h2 hhe
                omega
              · intro _
                simp only [creators]
                have := h2 hhe
                omega
              · intro hc; exact absurd hc (by simp)
              · intro hc; exact absurd hc (by simp)

theorem raceInv_run (sched : List Nat) : ∀ rs : RaceState,
    raceInv rs → raceInv (raceRun rs sched) := by
  induction sched with
  | nil => intro rs h; exact h
  | cons t sched ih => intro rs h; exact ih _ (raceInv_step rs t h)

/-- C1: for any single path, among N concurrent `NewObject` calls whose
atomic steps (`loadObject` line 100, `storeObject` line 143) interleave
in an arbitrary schedule, all issued before any backend response
returns, once every worker has returned exactly one backend creation
invocation was issued, exactly one worker is the creator, and the other
N−1 workers returned with `locked=true` or `alreadyExisted=true`
(`doneLocked`/`doneAlready`), having performed no creation call. -/
theorem NewObject_race_dedup (n : Nat) (sched : List Nat)
    (hn : 1 ≤ n)
    (hdone : ∀ pc ∈ (raceRun (initRace n) sched).pcs, isDoneW pc = true) :
    (raceRun (initRace n) sched).backendCalls = 1 ∧
    creators (raceRun (initRace n) sched) = 1 ∧
    deferrers (raceRun (initRace n) sched) = n - 1 := by
  have hinv := raceInv_run sched (initRace n) (raceInv_init n)
  set rs := raceRun (initRace n) sched with hrs
  obtain ⟨h1, h2, h3, h4⟩ := hinv
  have hlen : rs.pcs.length = n := by
    rw [hrs, raceRun_length]
    simp [initRace]
  have hhe : rs.hasEntry = true := by
    cases hhe : rs.hasEntry
    · exfalso
      have hne : rs.pcs ≠ [] := by
        intro hnil
        rw [hnil] at hlen
        simp at hlen
        omega
      obtain ⟨pc, hpc⟩ := List.exists_mem_of_ne_nil rs.pcs hne
      rcases h4 hhe pc hpc with hc | hc <;>
        · subst hc
          have := hdone _ hpc
          simp [isDoneW] at this
    · rfl
  have hc1 : creators rs = 1 := h2 hhe
  refine ⟨by rw [h1, hc1], hc1, ?_⟩
  have hdef : deferrers rs =
      rs.pcs.countP
        (fun a => decide ¬(decide (a = WorkerPC.doneCreator) = true)) := by
    unfold deferrers deferrersL
    apply List.countP_congr
    intro x hx
    have hd := hdone x hx
    cases x <;> simp [isDoneW] at hd ⊢
  have hsplit := List.length_eq_countP_add_countP
    (fun pc => decide (pc = WorkerPC.doneCreator)) rs.pcs
  have hcp : rs.pcs.countP (fun pc => decide (pc = WorkerPC.doneCreator))
      = creators rs := rfl
  rw [hdef]
  rw [hlen, hcp, hc1] at hsplit
  omega

/-- Witness for C1: three workers, a schedule that interleaves all three
loads before any store; worker 0 creates, workers 1 and 2 defer. -/
theorem NewObject_race_dedup_witness :
    1 ≤ 3 ∧
    (∀ pc ∈ (raceRun (initRace 3) [0, 1, 2, 0, 1, 2]).pcs,
      isDoneW pc = true) ∧
    ((raceRun (initRace 3) [0, 1, 2, 0, 1, 2]).backendCalls = 1 ∧
     creators (raceRun (initRace 3) [0, 1, 2, 0, 1, 2]) = 1 ∧
     deferrers (raceRun (initRace 3) [0, 1, 2, 0, 1, 2]) = 3 - 1) :=
  ⟨by decide, by decide,
    NewObject_race_dedup 3 [0, 1, 2, 0, 1, 2] (by decide) (by decide)⟩

/- ### C2: the compare-and-insert primitive -/

theorem storeAttempts_present (key : FPath) : ∀ (os : List Object) (s : St),
    (lookupMap s.objectMap key).isSome = true →
    (storeAttempts s key os).1 = List.replicate os.length false ∧
    (storeAttempts s key os).2 = s := by
  intro os
  induction os with
  | nil => intro s _; exact ⟨rfl, rfl⟩
  | cons o os ih =>
      intro s h
      obtain ⟨o', ho'⟩ := Option.isSome_iff_exists.mp h
      have hso : storeObject s key o = (false, s) := by
        unfold storeObject
        rw [ho']
      have := ih s h
      simp [storeAttempts, hso, List.replicate_succ, this.1, this.2]

/-- C2: `storeObject` returns `true` and stores the candidate under the
key iff no entry existed for the key; otherwise it returns `false` and
leaves the state (in particular the map) completely unchanged.  Of any
sequence of insert attempts for the same key with no intervening
removal, exactly the first succeeds. -/
theorem storeObject_cas (s : St) (key : FPath) (o : Object) :
    ((storeObject s key o).1 = true ↔ lookupMap s.objectMap key = none) ∧
    ((storeObject s key o).1 = true →
      (storeObject s key o).2.objectMap = (key, o) :: s.objectMap) ∧
    ((storeObject s key o).1 = false → (storeObject s key o).2 = s) ∧
    (∀ (c : Object) (cs : List Object),
      lookupMap s.objectMap key = none →
      (storeAttempts s key (c :: cs)).1
        = true :: List.replicate cs.length false) := by
  refine ⟨?_, ?_, ?_, ?_⟩
  · unfold storeObject
    cases h : lookupMap s.objectMap key <;> simp
  · unfold storeObject
    cases h : lookupMap s.objectMap key <;> simp
  · unfold storeObject
    cases h : lookupMap s.objectMap key <;> simp
  · intro c cs habs
    have hso : storeObject s key c =
        (true,
         { s with
           objectMap := (key, c) :: s.objectMap
           events :=
             s.events ++ [Ev.insertE key c s.objectMap s.rootFolderID] }) := by
      unfold storeObject
      rw [habs]
    have hpres := storeAttempts_present key cs
      { s with
        objectMap := (key, c) :: s.objectMap
        events :=
          s.events ++ [Ev.insertE key c s.objectMap s.rootFolderID] }
      (by simp)
    simp [storeAttempts, hso, hpres.1]

/-- Witness for C2 at an empty map: the first of two attempts succeeds,
the second fails. -/
theorem storeObject_cas_witness :
    lookupMap (⟨["r"], "rid", [], fun _ => Except.ok "gid", 0, []⟩ : St).objectMap
      ["r", "a"] = none ∧
    (storeAttempts ⟨["r"], "rid", [], fun _ => Except.ok "gid", 0, []⟩
      ["r", "a"] [⟨"", "rid", 0, 3⟩, ⟨"", "rid", 7, 4⟩]).1
      = true :: List.replicate 1 false :=
  ⟨rfl,
    (storeObject_cas ⟨["r"], "rid", [], fun _ => Except.ok "gid", 0, []⟩
      ["r", "a"] ⟨"", "rid", 0, 3⟩).2.2.2 ⟨"", "rid", 0, 3⟩
      [⟨"", "rid", 7, 4⟩] rfl⟩

/- ### C5: rollback of the placeholder on backend failure -/

/-- C5: if the backend creation invocation fails after the placeholder
was successfully inserted for a path (lines 143-157), `NewObject`'s
creation step removes the placeholder again and returns the backend
error unchanged: the map is exactly what it was before the attempt, with
no entry for the path, so a later pass can retry cleanly. -/
theorem createAt_backend_failure (fs : FS) (s : St) (loc : FPath)
    (pObj : Object) (wr : FSEntry) (e : String)
    (hp : isLocked pObj = false)
    (hstat : fs loc = Except.ok wr)
    (habs : lookupMap s.objectMap loc = none)
    (hresp : s.resp s.k = Except.error e) :
    (createAt fs s loc pObj).err = some e ∧
    (createAt fs s loc pObj).s.objectMap = s.objectMap ∧
    lookupMap (createAt fs s loc pObj).s.objectMap loc = none := by
  have herase :
      eraseKey ((loc, (⟨"", pObj.gdId,
          if wr.isDir then 0 else wr.modTimeUnix, wr.size⟩ : Object))
          :: s.objectMap) loc = s.objectMap := by
    rw [eraseKey]
    simp [eraseKey_lookup_none s.objectMap loc habs]
  simp only [createAt, hp, Bool.false_eq_true, if_false, osStat, hstat,
    storeObject, execCommand, deleteObject, habs, hresp]
  simp [herase, habs]

/-- Witness for C5: a one-file creation whose backend call fails. -/
theorem createAt_backend_failure_witness :
    isLocked (⟨"rid", "", 0, 0⟩ : Object) = false ∧
    ((fun (_ : FPath) => Except.ok ⟨false, 5, 7⟩ : FS) ["r", "x"]
      = Except.ok ⟨false, 5, 7⟩) ∧
    lookupMap ([] : List (FPath × Object)) ["r", "x"] = none ∧
    (fun (_ : Nat) => (Except.error "boom" : Except String String)) 0
      = Except.error "boom" ∧
    ((createAt (fun _ => Except.ok ⟨false, 5, 7⟩)
        ⟨["r"], "rid", [], fun _ => Except.error "boom", 0, []⟩
        ["r", "x"] ⟨"rid", "", 0, 0⟩).err = some "boom" ∧
     (createAt (fun _ => Except.ok ⟨false, 5, 7⟩)
        ⟨["r"], "rid", [], fun _ => Except.error "boom", 0, []⟩
        ["r", "x"] ⟨"rid", "", 0, 0⟩).s.objectMap = [] ∧
     lookupMap (createAt (fun _ => Except.ok ⟨false, 5, 7⟩)
        ⟨["r"], "rid", [], fun _ => Except.error "boom", 0, []⟩
        ["r", "x"] ⟨"rid", "", 0, 0⟩).s.objectMap ["r", "x"] = none) :=
  ⟨rfl, rfl, rfl, rfl,
    createAt_backend_failure (fun _ => Except.ok ⟨false, 5, 7⟩)
      ⟨["r"], "rid", [], fun _ => Except.error "boom", 0, []⟩
      ["r", "x"] ⟨"rid", "", 0, 0⟩ ⟨false, 5, 7⟩ "boom" rfl rfl rfl rfl⟩

/- ### C6 / C7: the modification check -/

/-- C6: `UpdateObjectIfModTimeChanged` issues a backend update command
iff the entry is a file, the observed modification time is strictly
greater than the stored one AND the observed size differs from the
stored one (line 195); a directory never triggers one (line 190); and
when the backend call succeeds, the stored `lastMod` and `size` are set
together to the observed values (lines 205-209). -/
theorem update_modcheck (s : St) (wr : WalkResp) (object : Object) :
    ((UpdateObjectIfModTimeChanged s wr object).1.events
      = s.events ++
        (if wr.isDir = false ∧ object.lastMod < wr.modTimeUnix ∧
            wr.size ≠ object.size
         then [Ev.cmdE (BackendCmd.update (dirOf wr.loc) object.gdId
                 (baseOf wr.loc))]
         else [])) ∧
    (wr.isDir = true →
      UpdateObjectIfModTimeChanged s wr object = (s, false, none)) ∧
    (wr.isDir = false → object.lastMod < wr.modTimeUnix →
      wr.size ≠ object.size →
      ∀ out, s.resp s.k = Except.ok out →
      (UpdateObjectIfModTimeChanged s wr object).2.1 = true ∧
      (UpdateObjectIfModTimeChanged s wr object).1.objectMap
        = setKey s.objectMap wr.loc
            { object with lastMod := wr.modTimeUnix, size := wr.size }) := by
  refine ⟨?_, ?_, ?_⟩
  · cases hdir : wr.isDir with
    | true => simp [UpdateObjectIfModTimeChanged, hdir]
    | false =>
        by_cases hcond : wr.modTimeUnix ≤ object.lastMod ∨ wr.size = object.size
        · have hnot : ¬(object.lastMod < wr.modTimeUnix ∧ wr.size ≠ object.size) := by
            rcases hcond with hc | hc
            · intro hand; omega
            · intro hand; exact hand.2 hc
          simp [UpdateObjectIfModTimeChanged, hdir, hcond, hnot]
        · have hyes : object.lastMod < wr.modTimeUnix ∧ wr.size ≠ object.size := by
            push_neg at hcond
            exact ⟨by omega, hcond.2⟩
          have hA : ¬(wr.modTimeUnix ≤ object.lastMod) := not_le.mpr hyes.1
          cases hresp : s.resp s.k with
          | error e =>
              simp [UpdateObjectIfModTimeChanged, hdir, hcond, hyes, hA,
                execCommand, hresp]
          | ok out =>
              simp [UpdateObjectIfModTimeChanged, hdir, hcond, hyes, hA,
                execCommand, updateStoredObject, hresp]
  · intro hdir
    simp [UpdateObjectIfModTimeChanged, hdir]
  · intro hdir hmod hsz out hresp
    have hcond : ¬(wr.modTimeUnix ≤ object.lastMod ∨ wr.size = object.size) := by
      rintro (hc | hc)
      · omega
      · exact hsz hc
    simp [UpdateObjectIfModTimeChanged, hdir, hcond, execCommand,
      updateStoredObject, hresp]

/-- Witness for C6: a file whose modification time advanced (3 → 5) and
whose size changed (7 → 9) triggers the update and stores both new
values. -/
theorem update_modcheck_witness :
    ((false : Bool) = false ∧ (3 : Int) < 5 ∧ (9 : Int) ≠ 7) ∧
    ((fun (_ : Nat) => (Except.ok "o" : Except String String)) 0
      = Except.ok "o") ∧
    ((UpdateObjectIfModTimeChanged
        ⟨["r"], "rid", [(["r", "f"], ⟨"g1", "rid", 3, 7⟩)],
          fun _ => Except.ok "o", 0, []⟩
        ⟨["r", "f"], 5, false, 9⟩ ⟨"g1", "rid", 3, 7⟩).2.1 = true ∧
     (UpdateObjectIfModTimeChanged
        ⟨["r"], "rid", [(["r", "f"], ⟨"g1", "rid", 3, 7⟩)],
          fun _ => Except.ok "o", 0, []⟩
        ⟨["r", "f"], 5, false, 9⟩ ⟨"g1", "rid", 3, 7⟩).1.objectMap
       = setKey [(["r", "f"], ⟨"g1", "rid", 3, 7⟩)] ["r", "f"]
           ⟨"g1", "rid", 5, 9⟩) :=
  ⟨⟨rfl, by decide, by decide⟩, rfl,
    (update_modcheck
      ⟨["r"], "rid", [(["r", "f"], ⟨"g1", "rid", 3, 7⟩)],
        fun _ => Except.ok "o", 0, []⟩
      ⟨["r", "f"], 5, false, 9⟩ ⟨"g1", "rid", 3, 7⟩).2.2 rfl (by decide)
      (by decide) "o" rfl⟩

/-- C7: when the backend update invocation fails, the modification check
reports `false` ("no update performed"), propagates no error (the Go
function returns `nil`), and leaves the stored entry — the whole map —
exactly as it was. -/
theorem update_backend_failure (s : St) (wr : WalkResp) (object : Object)
    (e : String)
    (hdir : wr.isDir = false)
    (hmod : object.lastMod < wr.modTimeUnix)
    (hsz : wr.size ≠ object.size)
    (hresp : s.resp s.k = Except.error e) :
    (UpdateObjectIfModTimeChanged s wr object).2.1 = false ∧
    (UpdateObjectIfModTimeChanged s wr object).2.2 = none ∧
    (UpdateObjectIfModTimeChanged s wr object).1.objectMap
      = s.objectMap := by
  have hcond : ¬(wr.modTimeUnix ≤ object.lastMod ∨ wr.size = object.size) := by
    rintro (hc | hc)
    · omega
    · exact hsz hc
  simp [UpdateObjectIfModTimeChanged, hdir, hcond, execCommand, hresp]

/-- Witness for C7: the same modified file, but the backend fails; the
stored metadata is untouched and no error surfaces. -/
theorem update_backend_failure_witness :
    ((false : Bool) = false ∧ (3 : Int) < 5 ∧ (9 : Int) ≠ 7) ∧
    ((fun (_ : Nat) => (Except.error "down" : Except String String)) 0
      = Except.error "down") ∧
    ((UpdateObjectIfModTimeChanged
        ⟨["r"], "rid", [(["r", "f"], ⟨"g1", "rid", 3, 7⟩)],
          fun _ => Except.error "down", 0, []⟩
        ⟨["r", "f"], 5, false, 9⟩ ⟨"g1", "rid", 3, 7⟩).2.1 = false ∧
     (UpdateObjectIfModTimeChanged
        ⟨["r"], "rid", [(["r", "f"], ⟨"g1", "rid", 3, 7⟩)],
          fun _ => Except.error "down", 0, []⟩
        ⟨["r", "f"], 5, false, 9⟩ ⟨"g1", "rid", 3, 7⟩).2.2 = none ∧
     (UpdateObjectIfModTimeChanged
        ⟨["r"], "rid", [(["r", "f"], ⟨"g1", "rid", 3, 7⟩)],
          fun _ => Except.error "down", 0, []⟩
        ⟨["r", "f"], 5, false, 9⟩ ⟨"g1", "rid", 3, 7⟩).1.objectMap
       = [(["r", "f"], ⟨"g1", "rid", 3, 7⟩)]) :=
  ⟨⟨rfl, by decide, by decide⟩, rfl,
    update_backend_failure
      ⟨["r"], "rid", [(["r", "f"], ⟨"g1", "rid", 3, 7⟩)],
        fun _ => Except.error "down", 0, []⟩
      ⟨["r", "f"], 5, false, 9⟩ ⟨"g1", "rid", 3, 7⟩ "down" rfl (by decide)
      (by decide) rfl⟩

/- ### C8: deletion reconciliation -/

theorem lookupMap_eraseKey (m : List (FPath × Object)) (k' key : FPath) :
    lookupMap (eraseKey m k') key
      = if k' = key then none else lookupMap m key := by
  induction m with
  | nil => simp [eraseKey]
  | cons p rest ih =>
      obtain ⟨k, o⟩ := p
      by_cases hk : k = k'
      · subst hk
        by_cases hky : k = key
        · subst hky
          simpa [eraseKey] using ih
        · simpa [eraseKey, lookupMap_cons, hky] using ih
      · by_cases hky : k = key
        · subst hky
          have hne : k' ≠ k := fun hc => hk hc.symm
          simp [eraseKey, lookupMap_cons, hk, hne]
        · simpa [eraseKey, lookupMap_cons, hk, hky] using ih

theorem DeleteObjectGDrive_events (s : St) (loc : FPath) (object : Object) :
    (DeleteObjectGDrive s loc object).events
      = s.events ++ [Ev.cmdE (BackendCmd.delete object.gdId)] := by
  simp [DeleteObjectGDrive, execCommand, deleteObject]

theorem DeleteObjectGDrive_lookup (s : St) (loc : FPath) (object : Object)
    (key : FPath) :
    lookupMap (DeleteObjectGDrive s loc object).objectMap key
      = if loc = key then none else lookupMap s.objectMap key := by
  simp [DeleteObjectGDrive, execCommand, deleteObject, lookupMap_eraseKey]

theorem deletePhase_events (queue : List (FPath × Object)) : ∀ s : St,
    (deletePhase s queue).events
      = s.events ++ queue.map (fun p => Ev.cmdE (BackendCmd.delete p.2.gdId)) := by
  induction queue with
  | nil => intro s; simp [deletePhase]
  | cons p rest ih =>
      intro s
      have : deletePhase s (p :: rest)
          = deletePhase (DeleteObjectGDrive s p.1 p.2) rest := rfl
      rw [this, ih, DeleteObjectGDrive_events]
      simp

theorem deletePhase_lookup_none (queue : List (FPath × Object)) :
    ∀ (s : St) (key : FPath), lookupMap s.objectMap key = none →
      lookupMap (deletePhase s queue).objectMap key = none := by
  induction queue with
  | nil => intro s key h; exact h
  | cons p rest ih =>
      intro s key h
      have hstep : deletePhase s (p :: rest)
          = deletePhase (DeleteObjectGDrive s p.1 p.2) rest := rfl
      rw [hstep]
      apply ih
      rw [DeleteObjectGDrive_lookup]
      by_cases hk : p.1 = key <;> simp [hk, h]

theorem deletePhase_mem_none (queue : List (FPath × Object)) :
    ∀ (s : St), ∀ p ∈ queue,
      lookupMap (deletePhase s queue).objectMap p.1 = none := by
  induction queue with
  | nil => intro s p hp; simp at hp
  | cons q rest ih =>
      intro s p hp
      have hstep : deletePhase s (q :: rest)
          = deletePhase (DeleteObjectGDrive s q.1 q.2) rest := rfl
      rw [hstep]
      rcases List.mem_cons.mp hp with rfl | hin
      · apply deletePhase_lookup_none
        rw [DeleteObjectGDrive_lookup]
        simp
      · exact ih _ p hin

/-- C8: for every tracked path absent from the deletion-phase walk (the
queue computed at driver lines 135-144), the deletion phase issues
exactly one backend recursive-delete invocation per entry, on that
entry's remote id, and removes the entry from the store — no hypothesis
is made on the backend responses, so this holds whether each delete
call succeeds or fails. -/
theorem deletePhase_spec (s : St) (walked : List FPath) :
    ((deletePhase s (deletedQueueOf s walked)).events
      = s.events ++ (deletedQueueOf s walked).map
          (fun p => Ev.cmdE (BackendCmd.delete p.2.gdId))) ∧
    (∀ p ∈ deletedQueueOf s walked,
      lookupMap (deletePhase s (deletedQueueOf s walked)).objectMap p.1
        = none) :=
  ⟨deletePhase_events (deletedQueueOf s walked) s,
    deletePhase_mem_none (deletedQueueOf s walked) s⟩

/-- Witness for C8: a store tracking two paths of which only one is
still on disk; the other gets exactly one delete call and vanishes from
the map. -/
theorem deletePhase_spec_witness :
    (["r", "gone"], (⟨"g2", "rid", 1, 2⟩ : Object)) ∈
      deletedQueueOf
        ⟨["r"], "rid",
          [(["r", "keep"], ⟨"g1", "rid", 0, 0⟩),
           (["r", "gone"], ⟨"g2", "rid", 1, 2⟩)],
          fun _ => Except.ok "", 0, []⟩ [["r"], ["r", "keep"]] ∧
    lookupMap
      (deletePhase
        ⟨["r"], "rid",
          [(["r", "keep"], ⟨"g1", "rid", 0, 0⟩),
           (["r", "gone"], ⟨"g2", "rid", 1, 2⟩)],
          fun _ => Except.ok "", 0, []⟩
        (deletedQueueOf
          ⟨["r"], "rid",
            [(["r", "keep"], ⟨"g1", "rid", 0, 0⟩),
             (["r", "gone"], ⟨"g2", "rid", 1, 2⟩)],
            fun _ => Except.ok "", 0, []⟩ [["r"], ["r", "keep"]])).objectMap
      ["r", "gone"] = none :=
  ⟨by decide,
    (deletePhase_spec
      ⟨["r"], "rid",
        [(["r", "keep"], ⟨"g1", "rid", 0, 0⟩),
         (["r", "gone"], ⟨"g2", "rid", 1, 2⟩)],
        fun _ => Except.ok "", 0, []⟩ [["r"], ["r", "keep"]]).2
      (["r", "gone"], ⟨"g2", "rid", 1, 2⟩) (by decide)⟩

/- ### C9: persistence round-trip -/

/-- C9: for any store state, persisting it (`SaveToFile`, which
marshals the deep copy `CopyObjects`) and reloading the written bytes
(`NewObjectManager`/`readObjectMap`) yields a mapping with exactly the
same keys and identical `gd_id`/`gdp_id`/`last_mod`/`size` values —
given the contract of the external `encoding/json` codec, namely that
unmarshalling a marshalled map reproduces the mapping. -/
theorem persist_roundtrip {β : Type} (c : Codec β) (hc : c.RoundTrips)
    (emptyJson : β) (s : St) :
    ∃ m', loadStore c emptyJson (some (SaveToFile c s)) = some m' ∧
      ∀ key, lookupMap m' key = lookupMap s.objectMap key := by
  obtain ⟨m1, hm1, hm1eq⟩ := hc s.objectMap
  obtain ⟨m2, hm2, hm2eq⟩ := hc m1
  refine ⟨m2, ?_, fun key => (hm2eq key).trans (hm1eq key)⟩
  simp [loadStore, SaveToFile, CopyObjectsVia, hm1, hm2]

/-- Witness for C9: the identity codec trivially satisfies the
round-trip contract; a two-entry store reloads to the same mapping. -/
theorem persist_roundtrip_witness :
    Codec.RoundTrips (⟨id, some⟩ : Codec (List (FPath × Object))) ∧
    ∃ m', loadStore (⟨id, some⟩ : Codec (List (FPath × Object))) []
        (some (SaveToFile ⟨id, some⟩
          ⟨["r"], "rid",
            [(["r", "a"], ⟨"g1", "rid", 0, 0⟩),
             (["r", "a", "f"], ⟨"g2", "g1", 9, 4⟩)],
            fun _ => Except.ok "", 0, []⟩)) = some m' ∧
      ∀ key, lookupMap m' key = lookupMap
        [(["r", "a"], ⟨"g1", "rid", 0, 0⟩),
         (["r", "a", "f"], ⟨"g2", "g1", 9, 4⟩)] key :=
  ⟨fun m => ⟨m, rfl, fun _ => rfl⟩,
    persist_roundtrip ⟨id, some⟩ (fun m => ⟨m, rfl, fun _ => rfl⟩) []
      ⟨["r"], "rid",
        [(["r", "a"], ⟨"g1", "rid", 0, 0⟩),
         (["r", "a", "f"], ⟨"g2", "g1", 9, 4⟩)],
        fun _ => Except.ok "", 0, []⟩⟩

/- ### C10: the root-folder-id side effect -/

/-- C10: looking up the sync-root path while the configured remote root
folder id is empty permanently mutates the shared config, setting the id
to `"."`, and does so during an operation whose only lock acquisition is
the read lock (the ghost `lockE .read`, lines 57-58); afterwards any
creation step that sees a parent id of `"."` issues the root-relative
backend command form that omits `--parent` (lines 148-150). -/
theorem loadObject_root_mutation :
    (∀ s : St, s.rootFolderID = "" →
      loadObject s s.rootPath =
        ({ s with rootFolderID := ".",
                  events := s.events ++ [Ev.lockE LockKind.read] },
         some ⟨".", "", 0, 0⟩)) ∧
    (∀ (fs : FS) (s : St) (loc : FPath) (pObj : Object) (wr : FSEntry),
      pObj.gdId = "." → fs loc = Except.ok wr →
      lookupMap s.objectMap loc = none →
      Ev.cmdE (BackendCmd.create (dirOf loc)
          (if wr.isDir then "mkdir" else "upload") (baseOf loc) none)
        ∈ (createAt fs s loc pObj).s.events) := by
  constructor
  · intro s h
    simp [loadObject, h]
  · intro fs s loc pObj wr hdot hstat habs
    have hp : isLocked pObj = false := by simp [isLocked, hdot]
    simp only [createAt, hp, Bool.false_eq_true, if_false, osStat, hstat,
      storeObject, habs, execCommand, hdot, if_true]
    cases hresp : s.resp s.k with
    | error e => simp [deleteObject, hdot]
    | ok out => simp [updateStoredObject, hdot]

/-- Witness for C10: an empty configured root id becomes `"."` on the
first root lookup, and a creation under parent id `"."` emits the
`--parent`-free command. -/
theorem loadObject_root_mutation_witness :
    ((⟨["r"], "", [], fun _ => Except.ok "gid", 0, []⟩ : St).rootFolderID
      = "" ∧
     loadObject (⟨["r"], "", [], fun _ => Except.ok "gid", 0, []⟩ : St)
        ["r"] =
      (⟨["r"], ".", [], fun _ => Except.ok "gid", 0, [Ev.lockE LockKind.read]⟩,
       some ⟨".", "", 0, 0⟩)) ∧
    Ev.cmdE (BackendCmd.create (dirOf ["r", "x"]) "upload"
        (baseOf ["r", "x"]) none)
      ∈ (createAt (fun _ => Except.ok ⟨false, 2, 3⟩)
          ⟨["r"], ".", [], fun _ => Except.ok "gid", 0, []⟩
          ["r", "x"] ⟨".", "", 0, 0⟩).s.events := by
  constructor
  · constructor
    · rfl
    · exact loadObject_root_mutation.1
        ⟨["r"], "", [], fun _ => Except.ok "gid", 0, []⟩ rfl
  · have := loadObject_root_mutation.2
      (fun _ => Except.ok ⟨false, 2, 3⟩)
      ⟨["r"], ".", [], fun _ => Except.ok "gid", 0, []⟩
      ["r", "x"] ⟨".", "", 0, 0⟩ ⟨false, 2, 3⟩ rfl rfl rfl
    simpa using this

/- ### C4: propagation of locked/alreadyExisted and the retry pass -/

/-- C4: when a path has no store entry and the recursive parent resolve
reports `alreadyExisted=true` or `locked=true` (without error),
`NewObject` returns the recursive call's state and flags verbatim
(lines 115-117): the final state *is* the recursion's state, so no stat,
no placeholder insertion and no backend call happen for the path, and
the flags are propagated unchanged; and in the driver's pass (lines
108-123) an entry whose `Sync` reported `locked=true` is placed on the
pending list for the next pass. -/
theorem newObject_propagates :
    (∀ (fs : FS) (fuel : Nat) (s s1 s2 : St) (loc : FPath) (r : NORes),
      loadObject s loc = (s1, none) →
      loadObject s1 (dirOf loc) = (s2, none) →
      NewObject fs fuel s2 (dirOf loc) = some r →
      r.err = none →
      (r.loaded = true ∨ r.locked = true) →
      NewObject fs (fuel + 1) s loc
        = some ⟨r.s, r.obj, r.loaded, r.locked, none⟩) ∧
    (∀ (fs : FS) (fuel : Nat) (s : St) (wr : WalkResp) (rest : List WalkResp)
        (s1 : St) (ntr : List WalkResp) (erw : Option String) (r : SyncRes),
      syncPass fs fuel s (wr :: rest) = some (s1, ntr, erw) →
      Sync fs fuel s wr = some r →
      r.locked = true →
      wr ∈ ntr) := by
  constructor
  · intro fs fuel s s1 s2 loc r h1 h2 h3 herr hflag
    have hflag' : (r.loaded || r.locked) = true := by
      rcases hflag with h | h <;> simp [h]
    simp only [NewObject, h1, h2, h3, herr, Option.isSome_none,
      Bool.false_eq_true, if_false, hflag', if_true]
  · intro fs fuel s wr rest s1 ntr erw r hpass hsync hlock
    simp only [syncPass, hsync] at hpass
    cases hrec : syncPass fs fuel r.s rest with
    | none => rw [hrec] at hpass; simp at hpass
    | some v =>
        obtain ⟨s1', ntr', erw'⟩ := v
        rw [hrec] at hpass
        simp only [hlock, if_true, Option.some.injEq, Prod.mk.injEq] at hpass
        obtain ⟨-, hntr, -⟩ := hpass
        rw [← hntr]
        exact List.mem_cons_self wr ntr'

/-- Witness for C4: the locked grandparent propagates through two
levels of recursion untouched, and the entry lands on the next pass's
pending list. -/
theorem newObject_propagates_witness :
    (loadObject wSt4 ["r", "a", "b", "c"]
        = ({ wSt4 with events := wEv 1 }, none) ∧
     loadObject { wSt4 with events := wEv 1 } ["r", "a", "b"]
        = ({ wSt4 with events := wEv 2 }, none) ∧
     NewObject wFS 1 { wSt4 with events := wEv 2 } ["r", "a", "b"]
        = some wR ∧
     wR.err = none ∧ wR.locked = true ∧
     NewObject wFS 2 wSt4 ["r", "a", "b", "c"]
        = some ⟨wR.s, wR.obj, wR.loaded, wR.locked, none⟩) ∧
    (syncPass wFS 2 wSt4 [wWR] = some (wSR.s, [wWR], none) ∧
     Sync wFS 2 wSt4 wWR = some wSR ∧ wSR.locked = true ∧
     wWR ∈ [wWR]) :=
  ⟨⟨rfl, rfl, rfl, rfl, rfl,
    newObject_propagates.1 wFS 1 wSt4 { wSt4 with events := wEv 1 }
      { wSt4 with events := wEv 2 } ["r", "a", "b", "c"] wR rfl rfl rfl rfl
      (Or.inr rfl)⟩,
   ⟨rfl, rfl, rfl,
    newObject_propagates.2 wFS 2 wSt4 wWR [] wSR.s [wWR] none wSR rfl rfl
      rfl⟩⟩

/- ### C3: parent-before-child -/

theorem loadObject_eq_root (s : St) (key : FPath) (h : key = s.rootPath) :
    loadObject s key =
      ({ s with
          events := s.events ++ [Ev.lockE LockKind.read]
          rootFolderID :=
            if s.rootFolderID = "" then "." else s.rootFolderID },
       some ⟨if s.rootFolderID = "" then "." else s.rootFolderID,
         "", 0, 0⟩) := by
  by_cases hrid : s.rootFolderID = "" <;> simp [loadObject, h, hrid]

theorem loadObject_eq_ne (s : St) (key : FPath) (h : key ≠ s.rootPath) :
    loadObject s key =
      ({ s with events := s.events ++ [Ev.lockE LockKind.read] },
       lookupMap s.objectMap key) := by
  simp [loadObject, h]

theorem loadObject_none_ne (s : St) (key : FPath) (s' : St)
    (h : loadObject s key = (s', none)) :
    key ≠ s.rootPath ∧
    s' = { s with events := s.events ++ [Ev.lockE LockKind.read] } ∧
    lookupMap s.objectMap key = none := by
  by_cases hk : key = s.rootPath
  · rw [loadObject_eq_root s key hk] at h
    simp at h
  · rw [loadObject_eq_ne s key hk] at h
    obtain ⟨h1, h2⟩ := Prod.mk.injEq .. ▸ h
    exact ⟨hk, h1.symm, h2⟩

theorem createAt_fresh_lookup (fs : FS) (s : St) (loc : FPath)
    (pObj : Object)
    (herr : (createAt fs s loc pObj).err = none)
    (hlock : (createAt fs s loc pObj).locked = false) :
    lookupMap (createAt fs s loc pObj).s.objectMap loc
      = some (createAt fs s loc pObj).obj := by
  by_cases hp : isLocked pObj = true
  · simp [createAt, hp] at hlock
  · have hp' : isLocked pObj = false := by simpa using hp
    cases hstat : fs loc with
    | error e =>
        simp [createAt, hp', osStat, hstat] at herr
    | ok wr =>
        cases habs : lookupMap s.objectMap loc with
        | some o' =>
            simp [createAt, hp', osStat, hstat, storeObject, habs] at hlock
        | none =>
            cases hresp : s.resp s.k with
            | error e =>
                simp [createAt, hp', osStat, hstat, storeObject, habs,
                  execCommand, hresp] at herr
            | ok out =>
                simp [createAt, hp', osStat, hstat, storeObject, habs,
                  execCommand, hresp, updateStoredObject, setKey]

theorem createAt_shape (fs : FS) (s : St) (loc : FPath) (pObj : Object) :
    (createAt fs s loc pObj).s.rootPath = s.rootPath ∧
    ∃ Δ, (createAt fs s loc pObj).s.events = s.events ++ Δ ∧
      (parentMatches s loc pObj → ∀ ev ∈ Δ, evOk s.rootPath ev) := by
  by_cases hp : isLocked pObj = true
  · refine ⟨by simp [createAt, hp], [], by simp [createAt, hp], ?_⟩
    intro _ ev hev
    simp at hev
  · have hp' : isLocked pObj = false := by simpa using hp
    have hgd : pObj.gdId ≠ "" := by
      simpa [isLocked] using hp'
    cases hstat : fs loc with
    | error e =>
        refine ⟨by simp [createAt, hp', osStat, hstat],
          [Ev.statE loc], by simp [createAt, hp', osStat, hstat], ?_⟩
        intro _ ev hev
        rcases List.mem_singleton.mp hev with rfl
        trivial
    | ok wr =>
        cases habs : lookupMap s.objectMap loc with
        | some o' =>
            refine ⟨by simp [createAt, hp', osStat, hstat, storeObject, habs],
              [Ev.statE loc],
              by simp [createAt, hp', osStat, hstat, storeObject, habs], ?_⟩
            intro _ ev hev
            rcases List.mem_singleton.mp hev with rfl
            trivial
        | none =>
            have hinsOk : parentMatches s loc pObj →
                evOk s.rootPath
                  (Ev.insertE loc
                    ⟨"", pObj.gdId,
                      if wr.isDir then 0 else wr.modTimeUnix, wr.size⟩
                    s.objectMap s.rootFolderID) := by
              intro hpm
              refine ⟨hgd, ?_⟩
              unfold parentMatches at hpm
              by_cases hd : dirOf loc = s.rootPath
              · simpa [evOk, hd] using (by simpa [hd] using hpm)
              · simpa [evOk, hd] using (by simpa [hd] using hpm)
            have hcmdOk : evOk s.rootPath
                (Ev.cmdE (BackendCmd.create (dirOf loc)
                  (if wr.isDir then "mkdir" else "upload") (baseOf loc)
                  (if pObj.gdId = "." then none else some pObj.gdId))) := by
              by_cases hdot : pObj.gdId = "." <;> simp [evOk, hdot, hgd]
            cases hresp : s.resp s.k with
            | error e =>
                refine ⟨by simp [createAt, hp', osStat, hstat, storeObject,
                    habs, execCommand, hresp, deleteObject],
                  [Ev.statE loc,
                   Ev.insertE loc
                     ⟨"", pObj.gdId,
                       if wr.isDir then 0 else wr.modTimeUnix, wr.size⟩
                     s.objectMap s.rootFolderID,
                   Ev.cmdE (BackendCmd.create (dirOf loc)
                     (if wr.isDir then "mkdir" else "upload") (baseOf loc)
                     (if pObj.gdId = "." then none else some pObj.gdId))],
                  by by_cases hdot : pObj.gdId = "." <;>
                      simp [createAt, hp', osStat, hstat, storeObject, habs,
                        execCommand, hresp, deleteObject, hdot], ?_⟩
                intro hpm ev hev
                rcases List.mem_cons.mp hev with rfl | hev
                · trivial
                · rcases List.mem_cons.mp hev with rfl | hev
                  · exact hinsOk hpm
                  · rcases List.mem_cons.mp hev with rfl | hev
                    · exact hcmdOk
                    · simp at hev
            | ok out =>
                refine ⟨by simp [createAt, hp', osStat, hstat, storeObject,
                    habs, execCommand, hresp, updateStoredObject],
                  [Ev.statE loc,
                   Ev.insertE loc
                     ⟨"", pObj.gdId,
                       if wr.isDir then 0 else wr.modTimeUnix, wr.size⟩
                     s.objectMap s.rootFolderID,
                   Ev.cmdE (BackendCmd.create (dirOf loc)
                     (if wr.isDir then "mkdir" else "upload") (baseOf loc)
                     (if pObj.gdId = "." then none else some pObj.gdId))],
                  by by_cases hdot : pObj.gdId = "." <;>
                      simp [createAt, hp', osStat, hstat, storeObject, habs,
                        execCommand, hresp, updateStoredObject, hdot], ?_⟩
                intro hpm ev hev
                rcases List.mem_cons.mp hev with rfl | hev
                · trivial
                · rcases List.mem_cons.mp hev with rfl | hev
                  · exact hinsOk hpm
                  · rcases List.mem_cons.mp hev with rfl | hev
                    · exact hcmdOk
                    · simp at hev

theorem newObject_fresh_lookup (fs : FS) :
    ∀ (fuel : Nat) (s : St) (loc : FPath) (r : NORes),
    NewObject fs fuel s loc = some r →
    r.err = none → r.loaded = false → r.locked = false →
    lookupMap r.s.objectMap loc = some r.obj := by
  intro fuel s loc r h herr hloaded hlocked
  cases fuel with
  | zero => simp [NewObject] at h
  | succ fuel =>
      cases hL : loadObject s loc with
      | mk s1 o1 =>
          cases o1 with
          | some eObj =>
              simp only [NewObject, hL] at h
              injection h with h
              rw [← h] at hloaded
              simp at hloaded
          | none =>
              cases hL2 : loadObject s1 (dirOf loc) with
              | mk s2 o2 =>
                  cases o2 with
                  | some pObj =>
                      simp only [NewObject, hL, hL2] at h
                      injection h with h
                      rw [← h] at herr hlocked ⊢
                      exact createAt_fresh_lookup fs s2 loc pObj herr hlocked
                  | none =>
                      cases hrec : NewObject fs fuel s2 (dirOf loc) with
                      | none =>
                          simp only [NewObject, hL, hL2, hrec] at h
                          exact Option.noConfusion h
                      | some r' =>
                          simp only [NewObject, hL, hL2, hrec] at h
                          cases hE : r'.err.isSome with
                          | true =>
                              rw [hE] at h
                              simp at h
                              rw [← h] at herr
                              simp at herr
                              rw [herr] at hE
                              simp at hE
                          | false =>
                              rw [hE] at h
                              simp at h
                              cases hLL : (r'.loaded || r'.locked) with
                              | true =>
                                  have hor : r'.loaded = true ∨ r'.locked = true := by
                                    simpa using hLL
                                  rw [if_pos hor] at h
                                  injection h with h
                                  rw [← h] at hloaded hlocked
                                  simp at hloaded hlocked
                                  rw [hloaded, hlocked] at hLL
                                  simp at hLL
                              | false =>
                                  have hand : r'.loaded = false ∧ r'.locked = false := by
                                    simpa using hLL
                                  rw [if_neg (by simp [hand.1, hand.2])] at h
                                  injection h with h
                                  rw [← h] at herr hlocked ⊢
                                  exact createAt_fresh_lookup fs r'.s loc
                                    r'.obj herr hlocked

theorem loadObject_shape (s : St) (key : FPath) :
    (loadObject s key).1.rootPath = s.rootPath ∧
    (loadObject s key).1.objectMap = s.objectMap ∧
    (loadObject s key).1.events = s.events ++ [Ev.lockE LockKind.read] := by
  by_cases hk : key = s.rootPath
  · rw [loadObject_eq_root s key hk]
    exact ⟨rfl, rfl, rfl⟩
  · rw [loadObject_eq_ne s key hk]
    exact ⟨rfl, rfl, rfl⟩

theorem newObject_shape (fs : FS) : ∀ (fuel : Nat) (s : St) (loc : FPath)
    (r : NORes), NewObject fs fuel s loc = some r →
    r.s.rootPath = s.rootPath ∧
    ∃ Δ, r.s.events = s.events ++ Δ ∧ ∀ ev ∈ Δ, evOk s.rootPath ev := by
  intro fuel
  induction fuel with
  | zero => intro s loc r h; simp [NewObject] at h
  | succ fuel ih =>
      intro s loc r h
      cases hL : loadObject s loc with
      | mk s1 o1 =>
          have hs1 : s1 = (loadObject s loc).1 := by rw [hL]
          have hs1root : s1.rootPath = s.rootPath := by
            rw [hs1]; exact (loadObject_shape s loc).1
          have hs1map : s1.objectMap = s.objectMap := by
            rw [hs1]; exact (loadObject_shape s loc).2.1
          have hs1ev : s1.events = s.events ++ [Ev.lockE LockKind.read] := by
            rw [hs1]; exact (loadObject_shape s loc).2.2
          cases o1 with
          | some eObj =>
              simp only [NewObject, hL] at h
              injection h with h
              rw [← h]
              refine ⟨hs1root, [Ev.lockE LockKind.read], hs1ev, ?_⟩
              intro ev hev
              rcases List.mem_singleton.mp hev with rfl
              trivial
          | none =>
              cases hL2 : loadObject s1 (dirOf loc) with
              | mk s2 o2 =>
                  have hs2 : s2 = (loadObject s1 (dirOf loc)).1 := by rw [hL2]
                  have hs2root : s2.rootPath = s.rootPath := by
                    rw [hs2, (loadObject_shape s1 (dirOf loc)).1, hs1root]
                  have hs2map : s2.objectMap = s.objectMap := by
                    rw [hs2, (loadObject_shape s1 (dirOf loc)).2.1, hs1map]
                  have hs2ev : s2.events = s.events ++
                      [Ev.lockE LockKind.read, Ev.lockE LockKind.read] := by
                    rw [hs2, (loadObject_shape s1 (dirOf loc)).2.2, hs1ev]
                    simp
                  cases o2 with
                  | some pObj =>
                      have hpm : parentMatches s2 loc pObj := by
                        by_cases hd : dirOf loc = s1.rootPath
                        · rw [loadObject_eq_root s1 (dirOf loc) hd] at hL2
                          obtain ⟨h2a, h2b⟩ := Prod.mk.injEq .. ▸ hL2
                          injection h2b with h2b
                          unfold parentMatches
                          rw [if_pos (by rw [hs2root, ← hs1root]; exact hd)]
                          rw [← h2b, ← h2a]
                        · rw [loadObject_eq_ne s1 (dirOf loc) hd] at hL2
                          obtain ⟨h2a, h2b⟩ := Prod.mk.injEq .. ▸ hL2
                          unfold parentMatches
                          rw [if_neg (by rw [hs2root, ← hs1root]; exact hd)]
                          exact ⟨pObj, by rw [hs2map, ← hs1map, h2b], rfl⟩
                      simp only [NewObject, hL, hL2] at h
                      injection h with h
                      rw [← h]
                      obtain ⟨hcr, Δ2, hce, hcok⟩ := createAt_shape fs s2 loc pObj
                      refine ⟨by rw [hcr, hs2root],
                        [Ev.lockE LockKind.read, Ev.lockE LockKind.read] ++ Δ2,
                        by rw [hce, hs2ev]; simp, ?_⟩
                      intro ev hev
                      rcases List.mem_append.mp hev with hev | hev
                      · have : ev = Ev.lockE LockKind.read := by simpa using hev
                        subst this
                        trivial
                      · have := hcok hpm ev hev
                        rwa [hs2root] at this
                  | none =>
                      cases hrec : NewObject fs fuel s2 (dirOf loc) with
                      | none =>
                          simp only [NewObject, hL, hL2, hrec] at h
                          exact Option.noConfusion h
                      | some r' =>
                          obtain ⟨hr'root, Δ', hr'ev, hr'ok⟩ :=
                            ih s2 (dirOf loc) r' hrec
                          have hΔ'ok : ∀ ev ∈ Δ', evOk s.rootPath ev := by
                            intro ev hev
                            have := hr'ok ev hev
                            rwa [hs2root] at this
                          have hrsroot : r'.s.rootPath = s.rootPath := by
                            rw [hr'root, hs2root]
                          have hrsev : r'.s.events = s.events ++
                              ([Ev.lockE LockKind.read, Ev.lockE LockKind.read]
                                ++ Δ') := by
                            rw [hr'ev, hs2ev]
                            simp
                          simp only [NewObject, hL, hL2, hrec] at h
                          cases hE : r'.err.isSome with
                          | true =>
                              rw [hE, if_pos rfl] at h
                              injection h with h
                              rw [← h]
                              refine ⟨hrsroot,
                                [Ev.lockE LockKind.read, Ev.lockE LockKind.read]
                                  ++ Δ', hrsev, ?_⟩
                              intro ev hev
                              rcases List.mem_append.mp hev with hev | hev
                              · have : ev = Ev.lockE LockKind.read := by
                                  simpa using hev
                                subst this
                                trivial
                              · exact hΔ'ok ev hev
                          | false =>
                              rw [hE] at h
                              simp only [Bool.false_eq_true, if_false] at h
                              cases hLL : (r'.loaded || r'.locked) with
                              | true =>
                                  have hor : r'.loaded = true ∨
                                      r'.locked = true := by simpa using hLL
                                  rw [if_pos (by simpa using hLL)] at h
                                  injection h with h
                                  rw [← h]
                                  refine ⟨hrsroot,
                                    [Ev.lockE LockKind.read,
                                     Ev.lockE LockKind.read] ++ Δ', hrsev, ?_⟩
                                  intro ev hev
                                  rcases List.mem_append.mp hev with hev | hev
                                  · have : ev = Ev.lockE LockKind.read := by
                                      simpa using hev
                                    subst this
                                    trivial
                                  · exact hΔ'ok ev hev
                              | false =>
                                  have hand : r'.loaded = false ∧
                                      r'.locked = false := by simpa using hLL
                                  rw [if_neg
                                    (by simp [hand.1, hand.2])] at h
                                  injection h with h
                                  rw [← h]
                                  have herr' : r'.err = none := by
                                    cases hre : r'.err with
                                    | none => rfl
                                    | some e => rw [hre] at hE; simp at hE
                                  have hdne := loadObject_none_ne s1
                                    (dirOf loc) s2 hL2
                                  have hpm : parentMatches r'.s loc r'.obj := by
                                    unfold parentMatches
                                    rw [if_neg (by
                                      rw [hrsroot, ← hs1root]
                                      exact hdne.1)]
                                    exact ⟨r'.obj,
                                      newObject_fresh_lookup fs fuel s2
                                        (dirOf loc) r' hrec herr' hand.1
                                        hand.2, rfl⟩
                                  obtain ⟨hcr, Δ2, hce, hcok⟩ :=
                                    createAt_shape fs r'.s loc r'.obj
                                  refine ⟨by rw [hcr, hrsroot],
                                    ([Ev.lockE LockKind.read,
                                      Ev.lockE LockKind.read] ++ Δ') ++ Δ2,
                                    by rw [hce, hrsev]; simp, ?_⟩
                                  intro ev hev
                                  rcases List.mem_append.mp hev with hev | hev
                                  · rcases List.mem_append.mp hev with hev | hev
                                    · have : ev = Ev.lockE LockKind.read := by
                                        simpa using hev
                                      subst this
                                      trivial
                                    · exact hΔ'ok ev hev
                                  · have := hcok hpm ev hev
                                    rwa [hrsroot] at this

/-- C3: over any `NewObject` run, every placeholder inserted into the
store carries a `gdpId` equal to the id the store (or the synthesized
root sentinel) held for its parent path at insertion time, and that
parent id is non-empty; every backend creation command issued names a
non-empty parent (the `--parent`-free root form stands for the `"."`
sentinel).  The ghost `insertE` events record key, object, and the
map/root-id at the instant of insertion; `cmdE` events record each
backend invocation. -/
theorem newObject_parent_before_child (fs : FS) (fuel : Nat) (s : St)
    (loc : FPath) (r : NORes) (h : NewObject fs fuel s loc = some r) :
    ∃ Δ, r.s.events = s.events ++ Δ ∧ ∀ ev ∈ Δ, evOk s.rootPath ev :=
  (newObject_shape fs fuel s loc r h).2

/-- Witness for C3: creating `["r", "x"]` under the root records one
insertion and one creation command, both with the non-empty parent id
`"rid"`. -/
theorem newObject_parent_before_child_witness :
    NewObject wFS 1 cSt ["r", "x"] = some cR ∧
    ∃ Δ, cR.s.events = cSt.events ++ Δ ∧
      ∀ ev ∈ Δ, evOk cSt.rootPath ev :=
  ⟨rfl, newObject_parent_before_child wFS 1 cSt ["r", "x"] cR rfl⟩
